import Mathlib

/-!
Shallow embedding of the three batch-rename scripts
(`rename_images.py`, `rename_images_v2.py`, `rename_images_v3.py`).

The filesystem is modelled as a single directory: an association list
from filename to abstract file contents (a directory never holds two
entries with the same name; theorems that need this carry a `Nodup`
hypothesis on the name list).  The whole filesystem state is
`Option Dir`: `none` models the base directory `images` being absent,
in which case `os.path.exists` answers `false` and `os.listdir` raises.

`os.rename old new` is modelled by `renameFile`: it relabels the entry
named `old` to `new`, silently replacing any existing entry named `new`
(POSIX overwrite semantics), and it can also fail for environmental
reasons (permissions and the like), which is modelled by an error
oracle `ErrOracle` consulted at each attempted rename: `err old new =
some msg` means the rename raises `OSError(msg)`.  Renaming a file
that is absent raises unconditionally (`fileMissingErr`).

Output (console prints of v1/v2, the `rename_log.txt` lines of v3) is
modelled as a list of structured `LogLine` values; `render` maps each
line to the exact text the scripts produce.
-/

namespace RenameImages

/-- Abstract file contents: renames must preserve them, nothing else
inspects them. -/
abbrev Content := Nat

/-- A directory: an association list from filename to contents, in
`os.listdir` order. -/
abbrev Dir := List (String × Content)

/-- The target directory name, `base_dir = "images"` in all three scripts. -/
def base_dir : String := "images"

/-- The hardcoded rename table, identical (as a literal) in all three
scripts, in Python dict insertion order. -/
def mapping : List (String × String) :=
  [("건희.png", "member-geonhee.png"),
   ("경준.jpeg", "member-kyungjun.jpeg"),
   ("고양이.jpg", "cat-mascot.jpg"),
   ("앨범 소개 2.png", "album-intro-2.png"),
   ("앨범 소개 3.png", "album-intro-3.png"),
   ("앨범 표지 1.png", "album-cover-1.png"),
   ("윤태.png", "member-yuntae.png"),
   ("진호.png", "member-jinho.png"),
   ("찬희.png", "member-chanhee.png"),
   ("현상금 윤태.png", "wanted-yuntae.png")]

/-- Source filenames of a rename table. -/
def keysOf (es : List (String × String)) : List String := es.map Prod.fst

/-- Destination filenames of a rename table. -/
def destsOf (es : List (String × String)) : List String := es.map Prod.snd

/-- Lookup of a filename in a directory (first match). -/
def lookupFile : Dir → String → Option Content
  | [], _ => none
  | p :: rest, n => if p.1 = n then some p.2 else lookupFile rest n

/-- Effect of a successful `os.rename old new` inside the directory:
the entry named `old` is relabelled to `new` in place, and any other
entry already named `new` is replaced (removed). -/
def renameFile : Dir → String → String → Dir
  | [], _, _ => []
  | p :: rest, old, nw =>
    if p.1 = old then (nw, p.2) :: renameFile rest old nw
    else if p.1 = nw then renameFile rest old nw
    else p :: renameFile rest old nw

/-- Python dict lookup `mapping[filename]` / membership test
`filename in mapping`, over an explicit entry list. -/
def mapLookup : List (String × String) → String → Option String
  | [], _ => none
  | e :: rest, n => if e.1 = n then some e.2 else mapLookup rest n

/-- Environmental rename failures (permission denied and the like):
`err old new = some msg` means `os.rename` on these names raises an
exception rendered as `msg`. -/
abbrev ErrOracle := String → String → Option String

/-- Message of the exception `os.rename` raises when the source file
is missing. -/
def fileMissingErr : String := "No such file or directory"

/-- Message of the exception `os.listdir` raises when the base
directory is absent. -/
def listdirFail : String := "No such file or directory: images"

/-- One line of program output (console print or log-file line). -/
inductive LogLine where
  | listing (files : List String)
  | renamed (old nw : String)
  | renameError (old msg : String)
  | notFound (old : String)
  | skipped (f : String)
  | globalError (msg : String)
deriving DecidableEq

/-- Exact text of each output line as produced by the scripts
(v3 log-file format; v2 prints the `listing` header as
`Files in images: ...` instead). -/
def render : LogLine → String
  | .listing files => "Files found: " ++ String.intercalate ", " files
  | .renamed old nw => s!"Renamed: {old} -> {nw}"
  | .renameError old msg => s!"Error renaming {old}: {msg}"
  | .notFound old => s!"File not found: {old}"
  | .skipped f => s!"Skipped: {f}"
  | .globalError msg => s!"Global error: {msg}"

/-- Number of `Renamed:` lines in an output. -/
def countRenamed (log : List LogLine) : Nat :=
  (log.filter fun l => match l with | .renamed _ _ => true | _ => false).length

/-- Number of `File not found:` plus `Skipped:` lines in an output. -/
def countMiss (log : List LogLine) : Nat :=
  (log.filter fun l =>
    match l with | .notFound _ => true | .skipped _ => true | _ => false).length

/-- Whether an output line is the per-entry miss message (either form)
for the mapping entry with source name `old`. -/
def missLineFor (l : LogLine) (old : String) : Bool :=
  match l with
  | .notFound o => decide (o = old)
  | .skipped o => decide (o = old)
  | _ => false

/-- Filesystem-level `os.path.exists(os.path.join(base_dir, name))`:
false whenever the base directory itself is absent. -/
def existsFs : Option Dir → String → Bool
  | none, _ => false
  | some d, n => (lookupFile d n).isSome

/-- Filesystem-level lookup. -/
def lookupFs : Option Dir → String → Option Content
  | none, _ => none
  | some d, n => lookupFile d n

/-- Filesystem-level rename. -/
def renameFs : Option Dir → String → String → Option Dir
  | none, _, _ => none
  | some d, old, nw => some (renameFile d old nw)

/-- Body of the v1 loop (`rename_images.py`, lines 18-29): probe
existence, then try the rename, catching any exception; report one
line either way. -/
def step1 (err : ErrOracle) (acc : Option Dir × List LogLine)
    (e : String × String) : Option Dir × List LogLine :=
  if existsFs acc.1 e.1 then
    match err e.1 e.2 with
    | some msg => (acc.1, acc.2 ++ [LogLine.renameError e.1 msg])
    | none => (renameFs acc.1 e.1 e.2, acc.2 ++ [LogLine.renamed e.1 e.2])
  else (acc.1, acc.2 ++ [LogLine.notFound e.1])

/-- One v1 pass over an arbitrary entry list, from an arbitrary
filesystem state. -/
def v1Fold (err : ErrOracle) (es : List (String × String))
    (acc : Option Dir × List LogLine) : Option Dir × List LogLine :=
  es.foldl (step1 err) acc

/-- The v1 pass over the real mapping. -/
def v1RunFs (err : ErrOracle) (fs : Option Dir) : Option Dir × List LogLine :=
  v1Fold err mapping (fs, [])

/-- The whole v1 program: it has no failure point (a missing base
directory just makes every existence probe answer false), so it always
terminates normally — `Except.error` would model an uncaught exception. -/
def runV1 (err : ErrOracle) (fs : Option Dir) :
    Except String (Option Dir × List LogLine) :=
  Except.ok (v1RunFs err fs)

/-- Shared body of the v2/v3 `try: os.rename ... except` block for a
listed filename that is a mapping key: `os.rename` raises if the file
has meanwhile disappeared, otherwise the error oracle decides; the
exception is caught and reported, else success is reported. -/
def renameStep (err : ErrOracle) (acc : Dir × List LogLine)
    (filename dst : String) : Dir × List LogLine :=
  if (lookupFile acc.1 filename).isSome then
    match err filename dst with
    | some msg => (acc.1, acc.2 ++ [LogLine.renameError filename msg])
    | none => (renameFile acc.1 filename dst, acc.2 ++ [LogLine.renamed filename dst])
  else (acc.1, acc.2 ++ [LogLine.renameError filename fileMissingErr])

/-- Prefix test on character lists. -/
def listPrefix : List Char → List Char → Bool
  | [], _ => true
  | _ :: _, [] => false
  | a :: as, b :: bs => a = b && listPrefix as bs

/-- Infix test on character lists. -/
def listInfix : List Char → List Char → Bool
  | needle, [] => needle.isEmpty
  | needle, c :: rest => listPrefix needle (c :: rest) || listInfix needle rest

/-- Python substring test `needle in hay`. -/
def strContains (hay needle : String) : Bool :=
  listInfix needle.data hay.data

/-- The v2 loose-match stub (`rename_images_v2.py`, lines 33-38): for
an unmapped filename it scans the table for keys occurring as
substrings, but its body is `pass`, so each iteration leaves the
accumulator as it is. -/
def looseMatch (es : List (String × String)) (acc : Dir × List LogLine)
    (filename : String) : Dir × List LogLine :=
  es.foldl (fun a kv => if strContains filename kv.1 then a else a) acc

/-- Body of the v2 loop over the directory listing. -/
def step2 (err : ErrOracle) (es : List (String × String))
    (acc : Dir × List LogLine) (filename : String) : Dir × List LogLine :=
  match mapLookup es filename with
  | some dst => renameStep err acc filename dst
  | none => looseMatch es acc filename

/-- Body of the v3 loop over the directory listing: unmapped files get
a `Skipped:` line. -/
def step3 (err : ErrOracle) (es : List (String × String))
    (acc : Dir × List LogLine) (filename : String) : Dir × List LogLine :=
  match mapLookup es filename with
  | some dst => renameStep err acc filename dst
  | none => (acc.1, acc.2 ++ [LogLine.skipped filename])

/-- The v2 loop from a present directory: snapshot the listing, print
it, then process each listed name. -/
def v2Pass (err : ErrOracle) (d : Dir) : Dir × List LogLine :=
  (d.map Prod.fst).foldl (step2 err mapping)
    (d, [LogLine.listing (d.map Prod.fst)])

/-- The whole v2 program: `os.listdir` on an absent base directory
raises with nothing catching it, so the process fails. -/
def runV2 (err : ErrOracle) (fs : Option Dir) :
    Except String (Option Dir × List LogLine) :=
  match fs with
  | none => Except.error listdirFail
  | some d => Except.ok (some (v2Pass err d).1, (v2Pass err d).2)

/-- The v3 loop from a present directory. -/
def v3Pass (err : ErrOracle) (d : Dir) : Dir × List LogLine :=
  (d.map Prod.fst).foldl (step3 err mapping)
    (d, [LogLine.listing (d.map Prod.fst)])

/-- The whole v3 program: the outer `try` catches a failing
`os.listdir`, logs it as a global error and exits normally. -/
def runV3 (err : ErrOracle) (fs : Option Dir) :
    Except String (Option Dir × List LogLine) :=
  match fs with
  | none => Except.ok (none, [LogLine.globalError listdirFail])
  | some d => Except.ok (some (v3Pass err d).1, (v3Pass err d).2)

/-- Well-formedness of a rename table: pairwise distinct source names,
pairwise distinct destination names, and no source name is also a
destination name (all three hold for `mapping` by computation). -/
def GoodTable (es : List (String × String)) : Prop :=
  (es.map Prod.fst).Nodup ∧
  (es.map Prod.snd).Nodup ∧
  ∀ a ∈ es, ∀ b ∈ es, a.1 ≠ b.2

/-- A filename is ASCII-safe when every character is plain ASCII. -/
def asciiSafe (s : String) : Bool :=
  s.data.all (fun ch => ch.toNat < 128)

/-- One v3-style pass over an arbitrary table and listing, for induction. -/
def v3Fold (err : ErrOracle) (es : List (String × String)) (files : List String)
    (acc : Dir × List LogLine) : Dir × List LogLine :=
  files.foldl (step3 err es) acc

/-- One v2-style pass over an arbitrary table and listing, for induction. -/
def v2Fold (err : ErrOracle) (es : List (String × String)) (files : List String)
    (acc : Dir × List LogLine) : Dir × List LogLine :=
  files.foldl (step2 err es) acc

theorem lookupFile_eq_none_of_not_mem {d : Dir} {n : String}
    (h : n ∉ d.map Prod.fst) : lookupFile d n = none := by
  induction d with
  | nil => rfl
  | cons p rest ih =>
    simp only [List.map_cons, List.mem_cons, not_or] at h
    simp only [lookupFile]
    rw [if_neg (show ¬p.1 = n from fun hp => h.1 hp.symm)]
    exact ih h.2

theorem mem_of_lookupFile_isSome {d : Dir} {n : String} {c : Content}
    (h : lookupFile d n = some c) : n ∈ d.map Prod.fst := by
  by_contra hmem
  rw [lookupFile_eq_none_of_not_mem hmem] at h
  exact Option.noConfusion h

theorem lookupFile_ne_none_of_mem {d : Dir} {n : String}
    (h : n ∈ d.map Prod.fst) : lookupFile d n ≠ none := by
  induction d with
  | nil => simp at h
  | cons p rest ih =>
    simp only [List.map_cons, List.mem_cons] at h
    by_cases hp : p.1 = n
    · simp [lookupFile, hp]
    · simp only [lookupFile, if_neg hp]
      exact ih (h.resolve_left (fun he => hp he.symm))

theorem rename_lookup_old (d : Dir) (old nw : String) (h : old ≠ nw) :
    lookupFile (renameFile d old nw) old = none := by
  induction d with
  | nil => rfl
  | cons p rest ih =>
    simp only [renameFile]
    by_cases h1 : p.1 = old
    · rw [if_pos h1]
      simp only [lookupFile]
      rw [if_neg (Ne.symm h)]
      exact ih
    · rw [if_neg h1]
      by_cases h2 : p.1 = nw
      · rw [if_pos h2]
        exact ih
      · rw [if_neg h2]
        simp only [lookupFile]
        rw [if_neg h1]
        exact ih

theorem rename_lookup_new (d : Dir) (old nw : String) (c : Content)
    (hc : lookupFile d old = some c) (h : old ≠ nw) :
    lookupFile (renameFile d old nw) nw = some c := by
  induction d with
  | nil => exact absurd hc (by simp [lookupFile])
  | cons p rest ih =>
    simp only [lookupFile] at hc
    simp only [renameFile]
    by_cases h1 : p.1 = old
    · rw [if_pos h1] at hc
      rw [if_pos h1]
      simp only [lookupFile]
      simpa using hc
    · rw [if_neg h1] at hc
      rw [if_neg h1]
      by_cases h2 : p.1 = nw
      · rw [if_pos h2]
        exact ih hc
      · rw [if_neg h2]
        simp only [lookupFile]
        rw [if_neg h2]
        exact ih hc

theorem rename_lookup_other (d : Dir) (old nw n : String)
    (h1 : n ≠ old) (h2 : n ≠ nw) :
    lookupFile (renameFile d old nw) n = lookupFile d n := by
  induction d with
  | nil => rfl
  | cons p rest ih =>
    simp only [renameFile]
    by_cases hp : p.1 = old
    · rw [if_pos hp]
      simp only [lookupFile]
      rw [if_neg (Ne.symm h2), if_neg (show ¬p.1 = n from fun hpn => h1 (hpn.symm.trans hp))]
      exact ih
    · rw [if_neg hp]
      by_cases hq : p.1 = nw
      · rw [if_pos hq]
        simp only [lookupFile]
        rw [if_neg (show ¬p.1 = n from fun hpn => h2 (hpn.symm.trans hq))]
        exact ih
      · rw [if_neg hq]
        simp only [lookupFile]
        by_cases hr : p.1 = n
        · rw [if_pos hr, if_pos hr]
        · rw [if_neg hr, if_neg hr]
          exact ih

theorem rename_lookup_none (d : Dir) (old nw n : String)
    (h0 : lookupFile d n = none) (h2 : n ≠ nw) :
    lookupFile (renameFile d old nw) n = none := by
  induction d with
  | nil => rfl
  | cons p rest ih =>
    simp only [lookupFile] at h0
    by_cases hr : p.1 = n
    · rw [if_pos hr] at h0
      exact Option.noConfusion h0
    · rw [if_neg hr] at h0
      simp only [renameFile]
      by_cases hp : p.1 = old
      · rw [if_pos hp]
        simp only [lookupFile]
        rw [if_neg (Ne.symm h2)]
        exact ih h0
      · rw [if_neg hp]
        by_cases hq : p.1 = nw
        · rw [if_pos hq]
          exact ih h0
        · rw [if_neg hq]
          simp only [lookupFile]
          rw [if_neg hr]
          exact ih h0

theorem existsFs_eq (fs : Option Dir) (n : String) :
    existsFs fs n = (lookupFs fs n).isSome := by
  cases fs <;> rfl

theorem mapLookup_eq_none {es : List (String × String)} {n : String}
    (h : n ∉ keysOf es) : mapLookup es n = none := by
  induction es with
  | nil => rfl
  | cons e rest ih =>
    simp only [keysOf, List.map_cons, List.mem_cons, not_or] at h
    simp only [mapLookup]
    rw [if_neg (show ¬e.1 = n from fun hp => h.1 hp.symm)]
    exact ih (by simpa [keysOf] using h.2)

theorem mapLookup_mem {es : List (String × String)} {n dst : String}
    (h : mapLookup es n = some dst) : (n, dst) ∈ es := by
  induction es with
  | nil => exact absurd h (by simp [mapLookup])
  | cons e rest ih =>
    simp only [mapLookup] at h
    by_cases hp : e.1 = n
    · rw [if_pos hp] at h
      have h2 : e.2 = dst := Option.some.inj h
      have he : (n, dst) = e := by rw [← hp, ← h2]
      rw [he]
      exact List.mem_cons_self e rest
    · rw [if_neg hp] at h
      exact List.mem_cons_of_mem e (ih h)

theorem mapLookup_of_mem {es : List (String × String)} (e : String × String)
    (he : e ∈ es) (hk : (es.map Prod.fst).Nodup) : mapLookup es e.1 = some e.2 := by
  induction es with
  | nil => simp at he
  | cons p rest ih =>
    simp only [List.map_cons, List.nodup_cons] at hk
    rcases List.mem_cons.mp he with rfl | hmem
    · simp [mapLookup]
    · have hne : ¬p.1 = e.1 := by
        intro hcontra
        exact hk.1 (by rw [hcontra]; exact List.mem_map_of_mem Prod.fst hmem)
      simp only [mapLookup]
      rw [if_neg hne]
      exact ih hmem hk.2

theorem nodup_split_mid {α : Type} {l1 l2 : List α} {a : α}
    (h : (l1 ++ a :: l2).Nodup) : a ∉ l1 ∧ a ∉ l2 := by
  rw [List.nodup_append] at h
  obtain ⟨h1, h2, hd⟩ := h
  rw [List.nodup_cons] at h2
  exact ⟨fun hmem => hd hmem (List.mem_cons_self a l2), h2.1⟩

theorem goodTable_key_ne_dest {es : List (String × String)}
    (hg : GoodTable es) {a b : String × String} (ha : a ∈ es) (hb : b ∈ es) :
    a.1 ≠ b.2 :=
  hg.2.2 a ha b hb

theorem goodTable_dests_ne {es : List (String × String)}
    (hg : GoodTable es) {a b : String × String} (ha : a ∈ es) (hb : b ∈ es)
    (hne : a.1 ≠ b.1) : a.2 ≠ b.2 := by
  have hp : es.Pairwise (fun x y => x.2 ≠ y.2) := List.pairwise_map.mp hg.2.1
  have hsym : Symmetric (fun x y : String × String => x.2 ≠ y.2) :=
    fun x y hxy => Ne.symm hxy
  exact hp.forall hsym ha hb (fun hab => hne (congrArg Prod.fst hab))

theorem renameFs_lookup_old (fs : Option Dir) (old nw : String) (h : old ≠ nw) :
    lookupFs (renameFs fs old nw) old = none := by
  cases fs with
  | none => rfl
  | some d => exact rename_lookup_old d old nw h

theorem renameFs_lookup_new (fs : Option Dir) (old nw : String) (c : Content)
    (hc : lookupFs fs old = some c) (h : old ≠ nw) :
    lookupFs (renameFs fs old nw) nw = some c := by
  cases fs with
  | none => exact absurd hc (by simp [lookupFs])
  | some d => exact rename_lookup_new d old nw c hc h

theorem renameFs_lookup_other (fs : Option Dir) (old nw n : String)
    (h1 : n ≠ old) (h2 : n ≠ nw) :
    lookupFs (renameFs fs old nw) n = lookupFs fs n := by
  cases fs with
  | none => rfl
  | some d => exact rename_lookup_other d old nw n h1 h2

theorem renameFs_lookup_none (fs : Option Dir) (old nw n : String)
    (h0 : lookupFs fs n = none) (h2 : n ≠ nw) :
    lookupFs (renameFs fs old nw) n = none := by
  cases fs with
  | none => rfl
  | some d => exact rename_lookup_none d old nw n h0 h2

theorem step1_frame (err : ErrOracle) (acc : Option Dir × List LogLine)
    (e : String × String) (n : String) (h1 : n ≠ e.1) (h2 : n ≠ e.2) :
    lookupFs (step1 err acc e).1 n = lookupFs acc.1 n := by
  unfold step1
  by_cases hex : existsFs acc.1 e.1
  · rw [if_pos hex]
    cases err e.1 e.2 with
    | none => exact renameFs_lookup_other acc.1 e.1 e.2 n h1 h2
    | some msg => rfl
  · rw [if_neg hex]

theorem step1_noneKeep (err : ErrOracle) (acc : Option Dir × List LogLine)
    (e : String × String) (n : String)
    (h0 : lookupFs acc.1 n = none) (h2 : n ≠ e.2) :
    lookupFs (step1 err acc e).1 n = none := by
  unfold step1
  by_cases hex : existsFs acc.1 e.1
  · rw [if_pos hex]
    cases err e.1 e.2 with
    | none => exact renameFs_lookup_none acc.1 e.1 e.2 n h0 h2
    | some msg => exact h0
  · rw [if_neg hex]
    exact h0

theorem step1_log (err : ErrOracle) (acc : Option Dir × List LogLine)
    (e : String × String) : ∃ l, (step1 err acc e).2 = acc.2 ++ [l] := by
  unfold step1
  by_cases hex : existsFs acc.1 e.1
  · rw [if_pos hex]
    cases err e.1 e.2 with
    | none => exact ⟨_, rfl⟩
    | some msg => exact ⟨_, rfl⟩
  · rw [if_neg hex]
    exact ⟨_, rfl⟩

theorem v1Fold_frame (err : ErrOracle) (es : List (String × String)) (n : String)
    (h : ∀ e ∈ es, n ≠ e.1 ∧ n ≠ e.2) (acc : Option Dir × List LogLine) :
    lookupFs (v1Fold err es acc).1 n = lookupFs acc.1 n := by
  induction es generalizing acc with
  | nil => rfl
  | cons e rest ih =>
    have he := h e (List.mem_cons_self e rest)
    have hrest : ∀ x ∈ rest, n ≠ x.1 ∧ n ≠ x.2 :=
      fun x hx => h x (List.mem_cons_of_mem e hx)
    show lookupFs (v1Fold err rest (step1 err acc e)).1 n = lookupFs acc.1 n
    rw [ih hrest (step1 err acc e)]
    exact step1_frame err acc e n he.1 he.2

theorem v1Fold_noneKeep (err : ErrOracle) (es : List (String × String)) (n : String)
    (h : ∀ e ∈ es, n ≠ e.2) (acc : Option Dir × List LogLine)
    (h0 : lookupFs acc.1 n = none) :
    lookupFs (v1Fold err es acc).1 n = none := by
  induction es generalizing acc with
  | nil => exact h0
  | cons e rest ih =>
    show lookupFs (v1Fold err rest (step1 err acc e)).1 n = none
    exact ih (fun x hx => h x (List.mem_cons_of_mem e hx)) (step1 err acc e)
      (step1_noneKeep err acc e n h0 (h e (List.mem_cons_self e rest)))

theorem v1Fold_log_extends (err : ErrOracle) (es : List (String × String))
    (acc : Option Dir × List LogLine) :
    ∃ t, (v1Fold err es acc).2 = acc.2 ++ t := by
  induction es generalizing acc with
  | nil => exact ⟨[], (List.append_nil acc.2).symm⟩
  | cons e rest ih =>
    obtain ⟨l, hl⟩ := step1_log err acc e
    obtain ⟨t, ht⟩ := ih (step1 err acc e)
    refine ⟨[l] ++ t, ?_⟩
    show (v1Fold err rest (step1 err acc e)).2 = acc.2 ++ ([l] ++ t)
    rw [ht, hl, List.append_assoc]

theorem v1Fold_log_mem (err : ErrOracle) (es : List (String × String))
    (acc : Option Dir × List LogLine) (l : LogLine) (h : l ∈ acc.2) :
    l ∈ (v1Fold err es acc).2 := by
  obtain ⟨t, ht⟩ := v1Fold_log_extends err es acc
  rw [ht]
  exact List.mem_append_left t h

theorem v1Fold_log_length (err : ErrOracle) (es : List (String × String))
    (acc : Option Dir × List LogLine) :
    (v1Fold err es acc).2.length = acc.2.length + es.length := by
  induction es generalizing acc with
  | nil => rfl
  | cons e rest ih =>
    obtain ⟨l, hl⟩ := step1_log err acc e
    show (v1Fold err rest (step1 err acc e)).2.length = acc.2.length + (rest.length + 1)
    rw [ih (step1 err acc e), hl, List.length_append]
    simp [Nat.add_assoc, Nat.add_comm 1 rest.length]

theorem v1Fold_allMiss (err : ErrOracle) (es : List (String × String))
    (acc : Option Dir × List LogLine)
    (h : ∀ e ∈ es, lookupFs acc.1 e.1 = none) :
    v1Fold err es acc = (acc.1, acc.2 ++ es.map (fun e => LogLine.notFound e.1)) := by
  induction es generalizing acc with
  | nil => simp [v1Fold]
  | cons e rest ih =>
    have h1 := h e (List.mem_cons_self e rest)
    have hstep : step1 err acc e = (acc.1, acc.2 ++ [LogLine.notFound e.1]) := by
      unfold step1
      rw [existsFs_eq, h1]
      rfl
    show v1Fold err rest (step1 err acc e) = _
    rw [hstep, ih (acc.1, acc.2 ++ [LogLine.notFound e.1])
      (fun x hx => h x (List.mem_cons_of_mem e hx))]
    simp [List.append_assoc]

theorem goodTable_split (pre post : List (String × String)) (k dst : String)
    (hg : GoodTable (pre ++ (k, dst) :: post)) :
    (∀ e ∈ pre, k ≠ e.1 ∧ k ≠ e.2 ∧ dst ≠ e.1 ∧ dst ≠ e.2) ∧
    (∀ e ∈ post, k ≠ e.1 ∧ k ≠ e.2 ∧ dst ≠ e.1 ∧ dst ≠ e.2) ∧ k ≠ dst := by
  obtain ⟨hks, hds, hkd⟩ := hg
  have hself : (k, dst) ∈ pre ++ (k, dst) :: post :=
    List.mem_append_right pre (List.mem_cons_self _ post)
  have hkk : k ∉ keysOf pre ∧ k ∉ keysOf post :=
    nodup_split_mid (show (keysOf pre ++ k :: keysOf post).Nodup by
      simpa [keysOf, List.map_append] using hks)
  have hdd : dst ∉ destsOf pre ∧ dst ∉ destsOf post :=
    nodup_split_mid (show (destsOf pre ++ dst :: destsOf post).Nodup by
      simpa [destsOf, List.map_append] using hds)
  have hside : ∀ e ∈ pre ++ (k, dst) :: post,
      (k ≠ e.2 ∧ dst ≠ e.1) := by
    intro e he
    refine ⟨hkd (k, dst) hself e he, fun hcontra => ?_⟩
    exact hkd e he (k, dst) hself (hcontra.symm)
  refine ⟨?_, ?_, hkd (k, dst) hself (k, dst) hself⟩
  · intro e he
    have hmem : e ∈ pre ++ (k, dst) :: post := List.mem_append_left _ he
    refine ⟨?_, (hside e hmem).1, (hside e hmem).2, ?_⟩
    · exact fun hc => hkk.1 (by rw [hc]; exact List.mem_map_of_mem Prod.fst he)
    · exact fun hc => hdd.1 (by rw [hc]; exact List.mem_map_of_mem Prod.snd he)
  · intro e he
    have hmem : e ∈ pre ++ (k, dst) :: post :=
      List.mem_append_right pre (List.mem_cons_of_mem _ he)
    refine ⟨?_, (hside e hmem).1, (hside e hmem).2, ?_⟩
    · exact fun hc => hkk.2 (by rw [hc]; exact List.mem_map_of_mem Prod.fst he)
    · exact fun hc => hdd.2 (by rw [hc]; exact List.mem_map_of_mem Prod.snd he)

theorem v1Fold_split (err : ErrOracle) (pre post : List (String × String))
    (e : String × String) (acc : Option Dir × List LogLine) :
    v1Fold err (pre ++ e :: post) acc =
      v1Fold err post (step1 err (v1Fold err pre acc) e) := by
  show List.foldl (step1 err) acc (pre ++ e :: post) = _
  rw [List.foldl_append, List.foldl_cons]
  rfl

theorem v1_present (err : ErrOracle) {es : List (String × String)} (hg : GoodTable es)
    (k dst : String) (c : Content) (hmem : (k, dst) ∈ es) (fs : Option Dir)
    (log : List LogLine) (hc : lookupFs fs k = some c) (hok : err k dst = none) :
    lookupFs (v1Fold err es (fs, log)).1 k = none ∧
    lookupFs (v1Fold err es (fs, log)).1 dst = some c ∧
    LogLine.renamed k dst ∈ (v1Fold err es (fs, log)).2 := by
  obtain ⟨pre, post, rfl⟩ := List.append_of_mem hmem
  obtain ⟨hpre, hpost, hkdst⟩ := goodTable_split pre post k dst hg
  have hfk : lookupFs (v1Fold err pre (fs, log)).1 k = some c := by
    rw [v1Fold_frame err pre k (fun e he => ⟨(hpre e he).1, (hpre e he).2.1⟩) (fs, log)]
    exact hc
  have hstep : step1 err (v1Fold err pre (fs, log)) (k, dst) =
      (renameFs (v1Fold err pre (fs, log)).1 k dst,
       (v1Fold err pre (fs, log)).2 ++ [LogLine.renamed k dst]) := by
    unfold step1
    simp only [existsFs_eq]
    rw [hfk, hok]
    rfl
  rw [v1Fold_split, hstep]
  refine ⟨?_, ?_, ?_⟩
  · rw [v1Fold_frame err post k (fun e he => ⟨(hpost e he).1, (hpost e he).2.1⟩)]
    exact renameFs_lookup_old (v1Fold err pre (fs, log)).1 k dst hkdst
  · rw [v1Fold_frame err post dst
      (fun e he => ⟨(hpost e he).2.2.1, (hpost e he).2.2.2⟩)]
    exact renameFs_lookup_new (v1Fold err pre (fs, log)).1 k dst c hfk hkdst
  · exact v1Fold_log_mem err post _ _
      (List.mem_append_right _ (List.mem_cons_self _ []))

theorem v1_absent (err : ErrOracle) {es : List (String × String)} (hg : GoodTable es)
    (k dst : String) (hmem : (k, dst) ∈ es) (fs : Option Dir) (log : List LogLine)
    (hc : lookupFs fs k = none) :
    lookupFs (v1Fold err es (fs, log)).1 k = none ∧
    lookupFs (v1Fold err es (fs, log)).1 dst = lookupFs fs dst ∧
    LogLine.notFound k ∈ (v1Fold err es (fs, log)).2 := by
  obtain ⟨pre, post, rfl⟩ := List.append_of_mem hmem
  obtain ⟨hpre, hpost, hkdst⟩ := goodTable_split pre post k dst hg
  have hfk : lookupFs (v1Fold err pre (fs, log)).1 k = none := by
    rw [v1Fold_frame err pre k (fun e he => ⟨(hpre e he).1, (hpre e he).2.1⟩) (fs, log)]
    exact hc
  have hstep : step1 err (v1Fold err pre (fs, log)) (k, dst) =
      ((v1Fold err pre (fs, log)).1,
       (v1Fold err pre (fs, log)).2 ++ [LogLine.notFound k]) := by
    unfold step1
    simp only [existsFs_eq]
    rw [hfk]
    rfl
  rw [v1Fold_split, hstep]
  refine ⟨?_, ?_, ?_⟩
  · rw [v1Fold_frame err post k (fun e he => ⟨(hpost e he).1, (hpost e he).2.1⟩)]
    exact hfk
  · rw [v1Fold_frame err post dst
      (fun e he => ⟨(hpost e he).2.2.1, (hpost e he).2.2.2⟩)]
    exact v1Fold_frame err pre dst
      (fun e he => ⟨(hpre e he).2.2.1, (hpre e he).2.2.2⟩) (fs, log)
  · exact v1Fold_log_mem err post _ _
      (List.mem_append_right _ (List.mem_cons_self _ []))

theorem v1_errorKeep (err : ErrOracle) {es : List (String × String)} (hg : GoodTable es)
    (k dst msg : String) (c : Content) (hmem : (k, dst) ∈ es) (fs : Option Dir)
    (log : List LogLine) (hc : lookupFs fs k = some c) (he : err k dst = some msg) :
    lookupFs (v1Fold err es (fs, log)).1 k = some c ∧
    LogLine.renameError k msg ∈ (v1Fold err es (fs, log)).2 := by
  obtain ⟨pre, post, rfl⟩ := List.append_of_mem hmem
  obtain ⟨hpre, hpost, hkdst⟩ := goodTable_split pre post k dst hg
  have hfk : lookupFs (v1Fold err pre (fs, log)).1 k = some c := by
    rw [v1Fold_frame err pre k (fun e he => ⟨(hpre e he).1, (hpre e he).2.1⟩) (fs, log)]
    exact hc
  have hstep : step1 err (v1Fold err pre (fs, log)) (k, dst) =
      ((v1Fold err pre (fs, log)).1,
       (v1Fold err pre (fs, log)).2 ++ [LogLine.renameError k msg]) := by
    unfold step1
    simp only [existsFs_eq]
    rw [hfk, he]
    rfl
  rw [v1Fold_split, hstep]
  refine ⟨?_, ?_⟩
  · rw [v1Fold_frame err post k (fun e he => ⟨(hpost e he).1, (hpost e he).2.1⟩)]
    exact hfk
  · exact v1Fold_log_mem err post _ _
      (List.mem_append_right _ (List.mem_cons_self _ []))

theorem v1_keyNone (err : ErrOracle) {es : List (String × String)} (hg : GoodTable es)
    (hne : ∀ o n, err o n = none) (k dst : String) (hmem : (k, dst) ∈ es)
    (fs : Option Dir) (log : List LogLine) :
    lookupFs (v1Fold err es (fs, log)).1 k = none := by
  cases hc : lookupFs fs k with
  | none => exact (v1_absent err hg k dst hmem fs log hc).1
  | some c => exact (v1_present err hg k dst c hmem fs log hc (hne k dst)).1

theorem step2_of_none (err : ErrOracle) (es : List (String × String))
    (acc : Dir × List LogLine) (f : String) (hm : mapLookup es f = none) :
    step2 err es acc f = looseMatch es acc f := by
  unfold step2
  rw [hm]

theorem step2_of_some (err : ErrOracle) (es : List (String × String))
    (acc : Dir × List LogLine) (f dst : String) (hm : mapLookup es f = some dst) :
    step2 err es acc f = renameStep err acc f dst := by
  unfold step2
  rw [hm]

theorem step3_of_none (err : ErrOracle) (es : List (String × String))
    (acc : Dir × List LogLine) (f : String) (hm : mapLookup es f = none) :
    step3 err es acc f = (acc.1, acc.2 ++ [LogLine.skipped f]) := by
  unfold step3
  rw [hm]

theorem step3_of_some (err : ErrOracle) (es : List (String × String))
    (acc : Dir × List LogLine) (f dst : String) (hm : mapLookup es f = some dst) :
    step3 err es acc f = renameStep err acc f dst := by
  unfold step3
  rw [hm]

theorem renameStep_missing (err : ErrOracle) (acc : Dir × List LogLine)
    (f dst : String) (h : lookupFile acc.1 f = none) :
    renameStep err acc f dst =
      (acc.1, acc.2 ++ [LogLine.renameError f fileMissingErr]) := by
  unfold renameStep
  rw [h]
  rfl

theorem renameStep_err (err : ErrOracle) (acc : Dir × List LogLine)
    (f dst msg : String) (c : Content) (h : lookupFile acc.1 f = some c)
    (he : err f dst = some msg) :
    renameStep err acc f dst = (acc.1, acc.2 ++ [LogLine.renameError f msg]) := by
  unfold renameStep
  rw [h, he]
  rfl

theorem renameStep_ok (err : ErrOracle) (acc : Dir × List LogLine)
    (f dst : String) (c : Content) (h : lookupFile acc.1 f = some c)
    (he : err f dst = none) :
    renameStep err acc f dst =
      (renameFile acc.1 f dst, acc.2 ++ [LogLine.renamed f dst]) := by
  unfold renameStep
  rw [h, he]
  rfl

theorem looseMatch_eq (es : List (String × String)) (acc : Dir × List LogLine)
    (f : String) : looseMatch es acc f = acc := by
  unfold looseMatch
  induction es with
  | nil => rfl
  | cons kv rest ih =>
    rw [List.foldl_cons, ite_self]
    exact ih

theorem step3_frame (err : ErrOracle) (es : List (String × String))
    (acc : Dir × List LogLine) (f n : String)
    (h : ∀ dst, mapLookup es f = some dst → f ≠ n ∧ dst ≠ n) :
    lookupFile (step3 err es acc f).1 n = lookupFile acc.1 n := by
  cases hm : mapLookup es f with
  | none => rw [step3_of_none err es acc f hm]
  | some dst =>
    obtain ⟨h1, h2⟩ := h dst hm
    rw [step3_of_some err es acc f dst hm]
    cases hlf : lookupFile acc.1 f with
    | none => rw [renameStep_missing err acc f dst hlf]
    | some c =>
      cases he : err f dst with
      | none =>
        rw [renameStep_ok err acc f dst c hlf he]
        exact rename_lookup_other acc.1 f dst n (Ne.symm h1) (Ne.symm h2)
      | some msg => rw [renameStep_err err acc f dst msg c hlf he]

theorem step3_noneKeep (err : ErrOracle) (es : List (String × String))
    (acc : Dir × List LogLine) (f n : String)
    (h0 : lookupFile acc.1 n = none)
    (h : ∀ dst, mapLookup es f = some dst → dst ≠ n) :
    lookupFile (step3 err es acc f).1 n = none := by
  cases hm : mapLookup es f with
  | none =>
    rw [step3_of_none err es acc f hm]
    exact h0
  | some dst =>
    rw [step3_of_some err es acc f dst hm]
    cases hlf : lookupFile acc.1 f with
    | none =>
      rw [renameStep_missing err acc f dst hlf]
      exact h0
    | some c =>
      cases he : err f dst with
      | none =>
        rw [renameStep_ok err acc f dst c hlf he]
        exact rename_lookup_none acc.1 f dst n h0 (Ne.symm (h dst hm))
      | some msg =>
        rw [renameStep_err err acc f dst msg c hlf he]
        exact h0

theorem step3_log (err : ErrOracle) (es : List (String × String))
    (acc : Dir × List LogLine) (f : String) :
    ∃ l, (step3 err es acc f).2 = acc.2 ++ [l] := by
  cases hm : mapLookup es f with
  | none =>
    rw [step3_of_none err es acc f hm]
    exact ⟨_, rfl⟩
  | some dst =>
    rw [step3_of_some err es acc f dst hm]
    cases hlf : lookupFile acc.1 f with
    | none =>
      rw [renameStep_missing err acc f dst hlf]
      exact ⟨_, rfl⟩
    | some c =>
      cases he : err f dst with
      | none =>
        rw [renameStep_ok err acc f dst c hlf he]
        exact ⟨_, rfl⟩
      | some msg =>
        rw [renameStep_err err acc f dst msg c hlf he]
        exact ⟨_, rfl⟩

theorem v3Fold_frame (err : ErrOracle) (es : List (String × String))
    (files : List String) (n : String)
    (h : ∀ f ∈ files, ∀ dst, mapLookup es f = some dst → f ≠ n ∧ dst ≠ n)
    (acc : Dir × List LogLine) :
    lookupFile (v3Fold err es files acc).1 n = lookupFile acc.1 n := by
  induction files generalizing acc with
  | nil => rfl
  | cons f rest ih =>
    show lookupFile (v3Fold err es rest (step3 err es acc f)).1 n = _
    rw [ih (fun x hx => h x (List.mem_cons_of_mem f hx)) (step3 err es acc f)]
    exact step3_frame err es acc f n (h f (List.mem_cons_self f rest))

theorem v3Fold_noneKeep (err : ErrOracle) (es : List (String × String))
    (files : List String) (n : String)
    (h : ∀ f ∈ files, ∀ dst, mapLookup es f = some dst → dst ≠ n)
    (acc : Dir × List LogLine) (h0 : lookupFile acc.1 n = none) :
    lookupFile (v3Fold err es files acc).1 n = none := by
  induction files generalizing acc with
  | nil => exact h0
  | cons f rest ih =>
    show lookupFile (v3Fold err es rest (step3 err es acc f)).1 n = none
    exact ih (fun x hx => h x (List.mem_cons_of_mem f hx)) (step3 err es acc f)
      (step3_noneKeep err es acc f n h0 (h f (List.mem_cons_self f rest)))

theorem v3Fold_log_extends (err : ErrOracle) (es : List (String × String))
    (files : List String) (acc : Dir × List LogLine) :
    ∃ t, (v3Fold err es files acc).2 = acc.2 ++ t := by
  induction files generalizing acc with
  | nil => exact ⟨[], (List.append_nil acc.2).symm⟩
  | cons f rest ih =>
    obtain ⟨l, hl⟩ := step3_log err es acc f
    obtain ⟨t, ht⟩ := ih (step3 err es acc f)
    refine ⟨[l] ++ t, ?_⟩
    show (v3Fold err es rest (step3 err es acc f)).2 = acc.2 ++ ([l] ++ t)
    rw [ht, hl, List.append_assoc]

theorem v3Fold_log_mem (err : ErrOracle) (es : List (String × String))
    (files : List String) (acc : Dir × List LogLine) (l : LogLine)
    (h : l ∈ acc.2) : l ∈ (v3Fold err es files acc).2 := by
  obtain ⟨t, ht⟩ := v3Fold_log_extends err es files acc
  rw [ht]
  exact List.mem_append_left t h

theorem v3Fold_log_length (err : ErrOracle) (es : List (String × String))
    (files : List String) (acc : Dir × List LogLine) :
    (v3Fold err es files acc).2.length = acc.2.length + files.length := by
  induction files generalizing acc with
  | nil => rfl
  | cons f rest ih =>
    obtain ⟨l, hl⟩ := step3_log err es acc f
    show (v3Fold err es rest (step3 err es acc f)).2.length =
      acc.2.length + (rest.length + 1)
    rw [ih (step3 err es acc f), hl, List.length_append]
    simp [Nat.add_assoc, Nat.add_comm 1 rest.length]

theorem v3Fold_allSkip (err : ErrOracle) (es : List (String × String))
    (files : List String) (acc : Dir × List LogLine)
    (h : ∀ f ∈ files, mapLookup es f = none) :
    v3Fold err es files acc = (acc.1, acc.2 ++ files.map LogLine.skipped) := by
  induction files generalizing acc with
  | nil => simp [v3Fold]
  | cons f rest ih =>
    show v3Fold err es rest (step3 err es acc f) = _
    rw [step3_of_none err es acc f (h f (List.mem_cons_self f rest)),
      ih (acc.1, acc.2 ++ [LogLine.skipped f])
        (fun x hx => h x (List.mem_cons_of_mem f hx))]
    simp [List.append_assoc]

theorem v2v3_state_eq (err : ErrOracle) (es : List (String × String))
    (files : List String) : ∀ (d : Dir) (l2 l3 : List LogLine),
    (v2Fold err es files (d, l2)).1 = (v3Fold err es files (d, l3)).1 := by
  induction files with
  | nil => intro d l2 l3; rfl
  | cons f rest ih =>
    intro d l2 l3
    show (v2Fold err es rest (step2 err es (d, l2) f)).1 =
      (v3Fold err es rest (step3 err es (d, l3) f)).1
    cases hm : mapLookup es f with
    | none =>
      rw [step2_of_none err es (d, l2) f hm, step3_of_none err es (d, l3) f hm,
        looseMatch_eq]
      exact ih d l2 (l3 ++ [LogLine.skipped f])
    | some dst =>
      rw [step2_of_some err es (d, l2) f dst hm, step3_of_some err es (d, l3) f dst hm]
      cases hlf : lookupFile d f with
      | none =>
        rw [renameStep_missing err (d, l2) f dst hlf,
          renameStep_missing err (d, l3) f dst hlf]
        exact ih d _ _
      | some c =>
        cases he : err f dst with
        | none =>
          rw [renameStep_ok err (d, l2) f dst c hlf he,
            renameStep_ok err (d, l3) f dst c hlf he]
          exact ih _ _ _
        | some msg =>
          rw [renameStep_err err (d, l2) f dst msg c hlf he,
            renameStep_err err (d, l3) f dst msg c hlf he]
          exact ih d _ _

theorem v3Fold_split (err : ErrOracle) (es : List (String × String))
    (pre post : List String) (f : String) (acc : Dir × List LogLine) :
    v3Fold err es (pre ++ f :: post) acc =
      v3Fold err es post (step3 err es (v3Fold err es pre acc) f) := by
  show List.foldl (step3 err es) acc (pre ++ f :: post) = _
  rw [List.foldl_append, List.foldl_cons]
  rfl

theorem keyFrame {es : List (String × String)} (hg : GoodTable es)
    (k dst : String) (hmem : (k, dst) ∈ es) (l : List String) (hknot : k ∉ l) :
    ∀ x ∈ l, ∀ dst2, mapLookup es x = some dst2 → x ≠ k ∧ dst2 ≠ k := by
  intro x hx dst2 hm2
  exact ⟨fun hxk => hknot (hxk ▸ hx),
    Ne.symm (hg.2.2 (k, dst) hmem (x, dst2) (mapLookup_mem hm2))⟩

theorem v2Fold_split (err : ErrOracle) (es : List (String × String))
    (pre post : List String) (f : String) (acc : Dir × List LogLine) :
    v2Fold err es (pre ++ f :: post) acc =
      v2Fold err es post (step2 err es (v2Fold err es pre acc) f) := by
  show List.foldl (step2 err es) acc (pre ++ f :: post) = _
  rw [List.foldl_append, List.foldl_cons]
  rfl

theorem miss_append_one {log : List LogLine} {k : String}
    (h : ∀ l ∈ log, missLineFor l k = false) {l0 : LogLine}
    (h0 : missLineFor l0 k = false) :
    ∀ l ∈ log ++ [l0], missLineFor l k = false := by
  intro l hl
  rcases List.mem_append.mp hl with hl2 | hl2
  · exact h l hl2
  · obtain rfl := List.mem_singleton.mp hl2
    exact h0

theorem step2_no_miss (err : ErrOracle) (es : List (String × String))
    (acc : Dir × List LogLine) (f k : String)
    (h : ∀ l ∈ acc.2, missLineFor l k = false) :
    ∀ l ∈ (step2 err es acc f).2, missLineFor l k = false := by
  cases hm : mapLookup es f with
  | none =>
    rw [step2_of_none err es acc f hm, looseMatch_eq]
    exact h
  | some dst2 =>
    rw [step2_of_some err es acc f dst2 hm]
    cases hlf : lookupFile acc.1 f with
    | none =>
      rw [renameStep_missing err acc f dst2 hlf]
      exact miss_append_one h rfl
    | some c =>
      cases he : err f dst2 with
      | none =>
        rw [renameStep_ok err acc f dst2 c hlf he]
        exact miss_append_one h rfl
      | some msg =>
        rw [renameStep_err err acc f dst2 msg c hlf he]
        exact miss_append_one h rfl

theorem step3_no_miss (err : ErrOracle) (es : List (String × String))
    (acc : Dir × List LogLine) (f k : String) (hfk : f ≠ k)
    (h : ∀ l ∈ acc.2, missLineFor l k = false) :
    ∀ l ∈ (step3 err es acc f).2, missLineFor l k = false := by
  cases hm : mapLookup es f with
  | none =>
    rw [step3_of_none err es acc f hm]
    exact miss_append_one h (decide_eq_false hfk)
  | some dst2 =>
    rw [step3_of_some err es acc f dst2 hm]
    cases hlf : lookupFile acc.1 f with
    | none =>
      rw [renameStep_missing err acc f dst2 hlf]
      exact miss_append_one h rfl
    | some c =>
      cases he : err f dst2 with
      | none =>
        rw [renameStep_ok err acc f dst2 c hlf he]
        exact miss_append_one h rfl
      | some msg =>
        rw [renameStep_err err acc f dst2 msg c hlf he]
        exact miss_append_one h rfl

theorem v2Fold_no_miss (err : ErrOracle) (es : List (String × String))
    (files : List String) :
    ∀ (acc : Dir × List LogLine) (k : String),
    (∀ l ∈ acc.2, missLineFor l k = false) →
    ∀ l ∈ (v2Fold err es files acc).2, missLineFor l k = false := by
  induction files with
  | nil => intro acc k h; exact h
  | cons f rest ih =>
    intro acc k h
    exact ih (step2 err es acc f) k (step2_no_miss err es acc f k h)

theorem v3Fold_no_miss (err : ErrOracle) (es : List (String × String))
    (files : List String) :
    ∀ (acc : Dir × List LogLine) (k : String), k ∉ files →
    (∀ l ∈ acc.2, missLineFor l k = false) →
    ∀ l ∈ (v3Fold err es files acc).2, missLineFor l k = false := by
  induction files with
  | nil => intro acc k _ h; exact h
  | cons f rest ih =>
    intro acc k hkf h
    have hfk : f ≠ k := fun hfe => hkf (hfe ▸ List.mem_cons_self f rest)
    exact ih (step3 err es acc f) k (fun hmem => hkf (List.mem_cons_of_mem f hmem))
      (step3_no_miss err es acc f k hfk h)

theorem step2_log_some (err : ErrOracle) (es : List (String × String))
    (acc : Dir × List LogLine) (f dst2 : String)
    (hm : mapLookup es f = some dst2) :
    ∃ l0, (step2 err es acc f).2 = acc.2 ++ [l0] := by
  rw [step2_of_some err es acc f dst2 hm]
  cases hlf : lookupFile acc.1 f with
  | none =>
    rw [renameStep_missing err acc f dst2 hlf]
    exact ⟨_, rfl⟩
  | some c =>
    cases he : err f dst2 with
    | none =>
      rw [renameStep_ok err acc f dst2 c hlf he]
      exact ⟨_, rfl⟩
    | some msg =>
      rw [renameStep_err err acc f dst2 msg c hlf he]
      exact ⟨_, rfl⟩

theorem step2_log (err : ErrOracle) (es : List (String × String))
    (acc : Dir × List LogLine) (f : String) :
    ∃ t, (step2 err es acc f).2 = acc.2 ++ t := by
  cases hm : mapLookup es f with
  | none =>
    rw [step2_of_none err es acc f hm, looseMatch_eq]
    exact ⟨[], (List.append_nil acc.2).symm⟩
  | some dst2 =>
    obtain ⟨l0, h0⟩ := step2_log_some err es acc f dst2 hm
    exact ⟨[l0], h0⟩

theorem v2Fold_log_extends (err : ErrOracle) (es : List (String × String))
    (files : List String) (acc : Dir × List LogLine) :
    ∃ t, (v2Fold err es files acc).2 = acc.2 ++ t := by
  induction files generalizing acc with
  | nil => exact ⟨[], (List.append_nil acc.2).symm⟩
  | cons f rest ih =>
    obtain ⟨t1, h1⟩ := step2_log err es acc f
    obtain ⟨t2, h2⟩ := ih (step2 err es acc f)
    refine ⟨t1 ++ t2, ?_⟩
    show (v2Fold err es rest (step2 err es acc f)).2 = acc.2 ++ (t1 ++ t2)
    rw [h2, h1, List.append_assoc]

theorem v2Fold_log_mem (err : ErrOracle) (es : List (String × String))
    (files : List String) (acc : Dir × List LogLine) (l : LogLine)
    (h : l ∈ acc.2) : l ∈ (v2Fold err es files acc).2 := by
  obtain ⟨t, ht⟩ := v2Fold_log_extends err es files acc
  rw [ht]
  exact List.mem_append_left t h

theorem v2Fold_log_length (err : ErrOracle) (es : List (String × String))
    (files : List String) :
    ∀ acc : Dir × List LogLine, (v2Fold err es files acc).2.length =
      acc.2.length +
        (files.filter (fun f => (mapLookup es f).isSome)).length := by
  induction files with
  | nil => intro acc; simp [v2Fold]
  | cons f rest ih =>
    intro acc
    show (v2Fold err es rest (step2 err es acc f)).2.length = _
    rw [ih (step2 err es acc f)]
    cases hm : mapLookup es f with
    | none =>
      rw [step2_of_none err es acc f hm, looseMatch_eq]
      simp [List.filter_cons, hm]
    | some dst2 =>
      obtain ⟨l0, h0⟩ := step2_log_some err es acc f dst2 hm
      rw [h0, List.length_append, List.filter_cons]
      simp only [hm, Option.isSome_some, if_true, List.length_cons,
        List.length_singleton, List.length_nil]
      omega

theorem v2_errorKeep (err : ErrOracle) {es : List (String × String)}
    (hg : GoodTable es) (k dst msg : String) (c : Content) (hmem : (k, dst) ∈ es)
    (files : List String) (hnd : files.Nodup) (hkf : k ∈ files)
    (d : Dir) (log : List LogLine) (hc : lookupFile d k = some c)
    (he : err k dst = some msg) :
    lookupFile (v2Fold err es files (d, log)).1 k = some c ∧
    LogLine.renameError k msg ∈ (v2Fold err es files (d, log)).2 := by
  obtain ⟨pre, post, rfl⟩ := List.append_of_mem hkf
  obtain ⟨hkpre, hkpost⟩ := nodup_split_mid hnd
  have hfk : lookupFile (v2Fold err es pre (d, log)).1 k = some c := by
    rw [v2v3_state_eq err es pre d log log,
      v3Fold_frame err es pre k (keyFrame hg k dst hmem pre hkpre) (d, log)]
    exact hc
  have hmk : mapLookup es k = some dst := mapLookup_of_mem (k, dst) hmem hg.1
  have hstep : step2 err es (v2Fold err es pre (d, log)) k =
      ((v2Fold err es pre (d, log)).1,
       (v2Fold err es pre (d, log)).2 ++ [LogLine.renameError k msg]) := by
    rw [step2_of_some err es _ k dst hmk, renameStep_err err _ k dst msg c hfk he]
  rw [v2Fold_split, hstep]
  constructor
  · rw [v2v3_state_eq err es post (v2Fold err es pre (d, log)).1
      ((v2Fold err es pre (d, log)).2 ++ [LogLine.renameError k msg])
      ((v2Fold err es pre (d, log)).2 ++ [LogLine.renameError k msg]),
      v3Fold_frame err es post k (keyFrame hg k dst hmem post hkpost)]
    exact hfk
  · exact v2Fold_log_mem err es post _ _
      (List.mem_append_right _ (List.mem_cons_self _ []))

theorem v3_present (err : ErrOracle) {es : List (String × String)}
    (hg : GoodTable es) (k dst : String) (c : Content) (hmem : (k, dst) ∈ es)
    (files : List String) (hnd : files.Nodup) (hkf : k ∈ files)
    (d : Dir) (log : List LogLine) (hc : lookupFile d k = some c)
    (hok : err k dst = none) :
    lookupFile (v3Fold err es files (d, log)).1 k = none ∧
    lookupFile (v3Fold err es files (d, log)).1 dst = some c ∧
    LogLine.renamed k dst ∈ (v3Fold err es files (d, log)).2 := by
  obtain ⟨pre, post, rfl⟩ := List.append_of_mem hkf
  obtain ⟨hkpre, hkpost⟩ := nodup_split_mid hnd
  have hkdst : k ≠ dst := hg.2.2 (k, dst) hmem (k, dst) hmem
  have hfk : lookupFile (v3Fold err es pre (d, log)).1 k = some c := by
    rw [v3Fold_frame err es pre k (keyFrame hg k dst hmem pre hkpre) (d, log)]
    exact hc
  have hmk : mapLookup es k = some dst := mapLookup_of_mem (k, dst) hmem hg.1
  have hstep : step3 err es (v3Fold err es pre (d, log)) k =
      (renameFile (v3Fold err es pre (d, log)).1 k dst,
       (v3Fold err es pre (d, log)).2 ++ [LogLine.renamed k dst]) := by
    rw [step3_of_some err es _ k dst hmk, renameStep_ok err _ k dst c hfk hok]
  have hframe_post_dst :
      ∀ x ∈ post, ∀ dst2, mapLookup es x = some dst2 → x ≠ dst ∧ dst2 ≠ dst := by
    intro x hx dst2 hm2
    have hxmem := mapLookup_mem hm2
    refine ⟨hg.2.2 (x, dst2) hxmem (k, dst) hmem, ?_⟩
    exact goodTable_dests_ne hg hxmem hmem
      (show x ≠ k from fun hxk => hkpost (hxk ▸ hx))
  rw [v3Fold_split, hstep]
  refine ⟨?_, ?_, ?_⟩
  · rw [v3Fold_frame err es post k (keyFrame hg k dst hmem post hkpost)]
    exact rename_lookup_old _ k dst hkdst
  · rw [v3Fold_frame err es post dst hframe_post_dst]
    exact rename_lookup_new _ k dst c hfk hkdst
  · exact v3Fold_log_mem err es post _ _
      (List.mem_append_right _ (List.mem_cons_self _ []))

theorem v3Fold_absent_dst (err : ErrOracle) {es : List (String × String)}
    (hg : GoodTable es) (k dst : String) (hmem : (k, dst) ∈ es) :
    ∀ (files : List String) (d : Dir) (log : List LogLine),
    lookupFile d k = none →
    lookupFile (v3Fold err es files (d, log)).1 dst = lookupFile d dst := by
  intro files
  induction files with
  | nil => intro d log _; rfl
  | cons f rest ih =>
    intro d log hc
    show lookupFile (v3Fold err es rest (step3 err es (d, log) f)).1 dst =
      lookupFile d dst
    cases hm : mapLookup es f with
    | none =>
      rw [step3_of_none err es (d, log) f hm]
      exact ih d (log ++ [LogLine.skipped f]) hc
    | some dst2 =>
      have hfm := mapLookup_mem hm
      rw [step3_of_some err es (d, log) f dst2 hm]
      cases hlf : lookupFile d f with
      | none =>
        rw [renameStep_missing err (d, log) f dst2 hlf]
        exact ih d _ hc
      | some c =>
        cases he : err f dst2 with
        | some msg =>
          rw [renameStep_err err (d, log) f dst2 msg c hlf he]
          exact ih d _ hc
        | none =>
          rw [renameStep_ok err (d, log) f dst2 c hlf he]
          have hfk : f ≠ k := by
            intro hfk2
            rw [hfk2, hc] at hlf
            exact Option.noConfusion hlf
          have hkd2 : k ≠ dst2 := hg.2.2 (k, dst) hmem (f, dst2) hfm
          have hc2 : lookupFile (renameFile d f dst2) k = none :=
            rename_lookup_none d f dst2 k hc hkd2
          have hdst_f : dst ≠ f := Ne.symm (hg.2.2 (f, dst2) hfm (k, dst) hmem)
          have hdst_dst2 : dst ≠ dst2 :=
            goodTable_dests_ne hg hmem hfm (show k ≠ f from Ne.symm hfk)
          rw [ih (renameFile d f dst2) _ hc2]
          exact rename_lookup_other d f dst2 dst hdst_f hdst_dst2

theorem v3_absent (err : ErrOracle) {es : List (String × String)}
    (hg : GoodTable es) (k dst : String) (hmem : (k, dst) ∈ es)
    (files : List String) (d : Dir) (log : List LogLine)
    (hc : lookupFile d k = none) :
    lookupFile (v3Fold err es files (d, log)).1 k = none ∧
    lookupFile (v3Fold err es files (d, log)).1 dst = lookupFile d dst := by
  constructor
  · apply v3Fold_noneKeep err es files k _ (d, log) hc
    intro f hf dst2 hm2
    exact Ne.symm (hg.2.2 (k, dst) hmem (f, dst2) (mapLookup_mem hm2))
  · exact v3Fold_absent_dst err hg k dst hmem files d log hc

theorem v3_errorKeep (err : ErrOracle) {es : List (String × String)}
    (hg : GoodTable es) (k dst msg : String) (c : Content) (hmem : (k, dst) ∈ es)
    (files : List String) (hnd : files.Nodup) (hkf : k ∈ files)
    (d : Dir) (log : List LogLine) (hc : lookupFile d k = some c)
    (he : err k dst = some msg) :
    lookupFile (v3Fold err es files (d, log)).1 k = some c ∧
    LogLine.renameError k msg ∈ (v3Fold err es files (d, log)).2 := by
  obtain ⟨pre, post, rfl⟩ := List.append_of_mem hkf
  obtain ⟨hkpre, hkpost⟩ := nodup_split_mid hnd
  have hfk : lookupFile (v3Fold err es pre (d, log)).1 k = some c := by
    rw [v3Fold_frame err es pre k (keyFrame hg k dst hmem pre hkpre) (d, log)]
    exact hc
  have hmk : mapLookup es k = some dst := mapLookup_of_mem (k, dst) hmem hg.1
  have hstep : step3 err es (v3Fold err es pre (d, log)) k =
      ((v3Fold err es pre (d, log)).1,
       (v3Fold err es pre (d, log)).2 ++ [LogLine.renameError k msg]) := by
    rw [step3_of_some err es _ k dst hmk, renameStep_err err _ k dst msg c hfk he]
  rw [v3Fold_split, hstep]
  constructor
  · rw [v3Fold_frame err es post k (keyFrame hg k dst hmem post hkpost)]
    exact hfk
  · exact v3Fold_log_mem err es post _ _
      (List.mem_append_right _ (List.mem_cons_self _ []))

theorem v3_keyNone (err : ErrOracle) {es : List (String × String)}
    (hg : GoodTable es) (hne : ∀ o n, err o n = none) (k dst : String)
    (hmem : (k, dst) ∈ es) (d : Dir) (hnd : (d.map Prod.fst).Nodup)
    (log : List LogLine) :
    lookupFile (v3Fold err es (d.map Prod.fst) (d, log)).1 k = none := by
  cases hc : lookupFile d k with
  | none => exact (v3_absent err hg k dst hmem (d.map Prod.fst) d log hc).1
  | some c =>
    exact (v3_present err hg k dst c hmem (d.map Prod.fst) hnd
      (mem_of_lookupFile_isSome hc) d log hc (hne k dst)).1

theorem goodMapping : GoodTable mapping :=
  ⟨by decide, by decide, by decide⟩

/-- C1: for every mapping entry whose source filename exists in the base
directory before the pass (and whose rename the environment does not
fail), after one run of the pass (v1 and v3 alike) the directory no
longer contains a file under the source name and contains a file under
the destination name with the original contents. -/
theorem claim_c1_present_source_renamed (err : ErrOracle) (d : Dir)
    (k dst : String) (c : Content) (hmem : (k, dst) ∈ mapping)
    (hnd : (d.map Prod.fst).Nodup) (hc : lookupFile d k = some c)
    (hok : err k dst = none) :
    (lookupFs (v1RunFs err (some d)).1 k = none ∧
     lookupFs (v1RunFs err (some d)).1 dst = some c) ∧
    (lookupFile (v3Pass err d).1 k = none ∧
     lookupFile (v3Pass err d).1 dst = some c) := by
  have h1 := v1_present err goodMapping k dst c hmem (some d) [] hc hok
  have h3 := v3_present err goodMapping k dst c hmem (d.map Prod.fst) hnd
    (mem_of_lookupFile_isSome hc) d [LogLine.listing (d.map Prod.fst)] hc hok
  exact ⟨⟨h1.1, h1.2.1⟩, h3.1, h3.2.1⟩

/-- Witness for C1 at the concrete directory holding only `고양이.jpg`. -/
theorem claim_c1_witness :
    ("고양이.jpg", "cat-mascot.jpg") ∈ mapping ∧
    (([("고양이.jpg", 7)] : Dir).map Prod.fst).Nodup ∧
    lookupFile [("고양이.jpg", 7)] "고양이.jpg" = some 7 ∧
    ((lookupFs (v1RunFs (fun _ _ => none) (some [("고양이.jpg", 7)])).1
        "고양이.jpg" = none ∧
      lookupFs (v1RunFs (fun _ _ => none) (some [("고양이.jpg", 7)])).1
        "cat-mascot.jpg" = some 7) ∧
     (lookupFile (v3Pass (fun _ _ => none) [("고양이.jpg", 7)]).1
        "고양이.jpg" = none ∧
      lookupFile (v3Pass (fun _ _ => none) [("고양이.jpg", 7)]).1
        "cat-mascot.jpg" = some 7)) :=
  ⟨by decide, by decide, by decide,
   claim_c1_present_source_renamed (fun _ _ => none) [("고양이.jpg", 7)]
     "고양이.jpg" "cat-mascot.jpg" 7 (by decide) (by decide) (by decide) rfl⟩

/-- C2 counterexample: v2 does not always exit 0 — on an absent base
directory its `os.listdir` call raises with nothing catching it, so
the process fails, contradicting the claim that every filesystem state
leads to a normal exit. -/
theorem claim_c2_counterexample :
    runV2 (fun _ _ => none) none = Except.error listdirFail := rfl

/-- C2 amended: v1 and v3 always terminate normally on every filesystem
state; v2 terminates normally whenever the base directory is present,
but a missing base directory propagates as a process failure. -/
theorem claim_c2_amended (err : ErrOracle) (fs : Option Dir) (d : Dir) :
    (∃ r, runV1 err fs = Except.ok r) ∧
    (∃ r, runV3 err fs = Except.ok r) ∧
    (∃ r, runV2 err (some d) = Except.ok r) := by
  refine ⟨⟨v1RunFs err fs, rfl⟩, ?_, ⟨_, rfl⟩⟩
  cases fs with
  | none => exact ⟨_, rfl⟩
  | some d2 => exact ⟨_, rfl⟩

/-- C3 counterexample: for a mapping entry whose source is absent, v3
produces no per-entry message at all (its `Skipped:` lines only cover
files that are present but unmapped), so the claimed "not found"/
"skipped" message for the entry does not exist in the v3 log. -/
theorem claim_c3_counterexample :
    ("고양이.jpg", "cat-mascot.jpg") ∈ mapping ∧
    lookupFile ([] : Dir) "고양이.jpg" = none ∧
    (∀ l ∈ (v3Pass (fun _ _ => none) ([] : Dir)).2,
      missLineFor l "고양이.jpg" = false) := by
  decide

/-- C3 amended: for every mapping entry whose source filename is absent,
every version (v1, v2 and v3) leaves the directory unchanged with
respect to that entry — the source stays absent and the destination
keeps its previous content; v1 prints the `File not found:` message for
the entry, while v2 and v3 produce no per-entry miss message for it
anywhere in their output. -/
theorem claim_c3_amended (err : ErrOracle) (d : Dir) (k dst : String)
    (hmem : (k, dst) ∈ mapping) (hc : lookupFile d k = none) :
    (lookupFs (v1RunFs err (some d)).1 k = none ∧
     lookupFs (v1RunFs err (some d)).1 dst = lookupFile d dst ∧
     LogLine.notFound k ∈ (v1RunFs err (some d)).2) ∧
    (lookupFile (v2Pass err d).1 k = none ∧
     lookupFile (v2Pass err d).1 dst = lookupFile d dst ∧
     (∀ l ∈ (v2Pass err d).2, missLineFor l k = false)) ∧
    (lookupFile (v3Pass err d).1 k = none ∧
     lookupFile (v3Pass err d).1 dst = lookupFile d dst ∧
     (∀ l ∈ (v3Pass err d).2, missLineFor l k = false)) := by
  have h1 := v1_absent err goodMapping k dst hmem (some d) [] hc
  have h3 := v3_absent err goodMapping k dst hmem (d.map Prod.fst) d
    [LogLine.listing (d.map Prod.fst)] hc
  have hstate2 : (v2Pass err d).1 = (v3Pass err d).1 :=
    v2v3_state_eq err mapping (d.map Prod.fst) d
      [LogLine.listing (d.map Prod.fst)] [LogLine.listing (d.map Prod.fst)]
  have hkfiles : k ∉ d.map Prod.fst :=
    fun hmm => lookupFile_ne_none_of_mem hmm hc
  have hinit : ∀ l ∈ [LogLine.listing (d.map Prod.fst)],
      missLineFor l k = false := by
    intro l hl
    obtain rfl := List.mem_singleton.mp hl
    rfl
  refine ⟨⟨h1.1, h1.2.1, h1.2.2⟩, ⟨?_, ?_, ?_⟩, ⟨h3.1, h3.2, ?_⟩⟩
  · exact (congrArg (fun dd => lookupFile dd k) hstate2).trans h3.1
  · exact (congrArg (fun dd => lookupFile dd dst) hstate2).trans h3.2
  · exact v2Fold_no_miss err mapping (d.map Prod.fst)
      (d, [LogLine.listing (d.map Prod.fst)]) k hinit
  · exact v3Fold_no_miss err mapping (d.map Prod.fst)
      (d, [LogLine.listing (d.map Prod.fst)]) k hkfiles hinit

/-- Witness for the amended C3 at the empty directory and the cat entry. -/
theorem claim_c3_witness :
    ("고양이.jpg", "cat-mascot.jpg") ∈ mapping ∧
    lookupFile ([] : Dir) "고양이.jpg" = none ∧
    ((lookupFs (v1RunFs (fun _ _ => none) (some ([] : Dir))).1 "고양이.jpg" = none ∧
      lookupFs (v1RunFs (fun _ _ => none) (some ([] : Dir))).1 "cat-mascot.jpg" =
        lookupFile ([] : Dir) "cat-mascot.jpg" ∧
      LogLine.notFound "고양이.jpg" ∈ (v1RunFs (fun _ _ => none) (some ([] : Dir))).2) ∧
     (lookupFile (v2Pass (fun _ _ => none) ([] : Dir)).1 "고양이.jpg" = none ∧
      lookupFile (v2Pass (fun _ _ => none) ([] : Dir)).1 "cat-mascot.jpg" =
        lookupFile ([] : Dir) "cat-mascot.jpg" ∧
      (∀ l ∈ (v2Pass (fun _ _ => none) ([] : Dir)).2,
        missLineFor l "고양이.jpg" = false)) ∧
     (lookupFile (v3Pass (fun _ _ => none) ([] : Dir)).1 "고양이.jpg" = none ∧
      lookupFile (v3Pass (fun _ _ => none) ([] : Dir)).1 "cat-mascot.jpg" =
        lookupFile ([] : Dir) "cat-mascot.jpg" ∧
      (∀ l ∈ (v3Pass (fun _ _ => none) ([] : Dir)).2,
        missLineFor l "고양이.jpg" = false))) :=
  ⟨by decide, by decide,
   claim_c3_amended (fun _ _ => none) [] "고양이.jpg" "cat-mascot.jpg"
     (by decide) (by decide)⟩

/-- C5 counterexample: on the directory holding only `고양이.jpg`, the v3
log does not contain nine "not found"/"skipped" lines — it contains
none, since absent sources produce no per-entry message in v3. -/
theorem claim_c5_counterexample :
    ¬ (countRenamed (v3Pass (fun _ _ => none) [("고양이.jpg", 7)]).2 = 1 ∧
       countMiss (v3Pass (fun _ _ => none) [("고양이.jpg", 7)]).2 = 9) := by
  decide

/-- C5 amended: with the directory holding only `고양이.jpg`, one run
leaves `cat-mascot.jpg` in the directory; v1's output contains exactly
one Renamed line and nine `File not found:` lines, while v3's log
contains exactly one Renamed line and zero miss lines. -/
theorem claim_c5_amended :
    (lookupFs (v1RunFs (fun _ _ => none) (some [("고양이.jpg", 7)])).1
       "cat-mascot.jpg" = some 7 ∧
     countRenamed (v1RunFs (fun _ _ => none) (some [("고양이.jpg", 7)])).2 = 1 ∧
     countMiss (v1RunFs (fun _ _ => none) (some [("고양이.jpg", 7)])).2 = 9) ∧
    (lookupFile (v3Pass (fun _ _ => none) [("고양이.jpg", 7)]).1
       "cat-mascot.jpg" = some 7 ∧
     countRenamed (v3Pass (fun _ _ => none) [("고양이.jpg", 7)]).2 = 1 ∧
     countMiss (v3Pass (fun _ _ => none) [("고양이.jpg", 7)]).2 = 0) := by
  decide

/-- C8: on the empty base directory each version completes without any
filesystem mutation; v1 reports ten `File not found:` lines (one per
entry) and v2/v3 report no per-file line at all beyond the listing
header. -/
theorem claim_c8_empty_dir (err : ErrOracle) :
    v1RunFs err (some []) =
      (some [], mapping.map (fun e => LogLine.notFound e.1)) ∧
    countMiss (v1RunFs err (some [])).2 = 10 ∧
    countRenamed (v1RunFs err (some [])).2 = 0 ∧
    v2Pass err [] = ([], [LogLine.listing []]) ∧
    v3Pass err [] = ([], [LogLine.listing []]) ∧
    countMiss (v3Pass err []).2 = 0 :=
  ⟨rfl, rfl, rfl, rfl, rfl, rfl⟩

/-- C9: the static mapping is a fixed table of exactly ten entries whose
destination names are pairwise distinct ASCII-safe filenames (the table
is a closed immutable constant of the embedding, mirroring the literal
dict that no script mutates). -/
theorem claim_c9_mapping_invariant :
    mapping.length = 10 ∧
    (mapping.map Prod.snd).Nodup ∧
    (∀ e ∈ mapping, asciiSafe e.2 = true) := by
  decide

/-- C4: after a run in which every attempted rename succeeded, a second
run is a no-op — v1 reports `File not found:` for all ten entries and
v3 reports `Skipped:` for every remaining file — and the filesystem
state after two consecutive runs equals the state after one run. -/
theorem claim_c4_idempotent (err err2 : ErrOracle) (d : Dir)
    (hne : ∀ o n, err o n = none) (hnd : (d.map Prod.fst).Nodup) :
    v1RunFs err2 (v1RunFs err (some d)).1 =
      ((v1RunFs err (some d)).1, mapping.map (fun e => LogLine.notFound e.1)) ∧
    v3Pass err2 (v3Pass err d).1 =
      ((v3Pass err d).1,
       LogLine.listing ((v3Pass err d).1.map Prod.fst) ::
         ((v3Pass err d).1.map Prod.fst).map LogLine.skipped) := by
  constructor
  · have hkeys : ∀ e ∈ mapping, lookupFs (v1RunFs err (some d)).1 e.1 = none := by
      intro e he
      obtain ⟨k2, dst2⟩ := e
      exact v1_keyNone err goodMapping hne k2 dst2 he (some d) []
    have hall := v1Fold_allMiss err2 mapping ((v1RunFs err (some d)).1, []) hkeys
    exact hall
  · have hkeys1 : ∀ e ∈ mapping, lookupFile (v3Pass err d).1 e.1 = none := by
      intro e he
      obtain ⟨k2, dst2⟩ := e
      exact v3_keyNone err goodMapping hne k2 dst2 he d hnd
        [LogLine.listing (d.map Prod.fst)]
    have hnokeys : ∀ f ∈ (v3Pass err d).1.map Prod.fst,
        mapLookup mapping f = none := by
      intro f hf
      cases hm : mapLookup mapping f with
      | none => rfl
      | some dst2 =>
        have hmem2 := mapLookup_mem hm
        exact absurd (hkeys1 (f, dst2) hmem2) (lookupFile_ne_none_of_mem hf)
    exact v3Fold_allSkip err2 mapping ((v3Pass err d).1.map Prod.fst)
      ((v3Pass err d).1, [LogLine.listing ((v3Pass err d).1.map Prod.fst)]) hnokeys

/-- Witness for C4 at the concrete directory holding only `고양이.jpg`. -/
theorem claim_c4_witness :
    (∀ o n : String, (fun _ _ => none : ErrOracle) o n = none) ∧
    (([("고양이.jpg", 5)] : Dir).map Prod.fst).Nodup ∧
    (v1RunFs (fun _ _ => none) (v1RunFs (fun _ _ => none) (some [("고양이.jpg", 5)])).1 =
      ((v1RunFs (fun _ _ => none) (some [("고양이.jpg", 5)])).1,
       mapping.map (fun e => LogLine.notFound e.1)) ∧
     v3Pass (fun _ _ => none) (v3Pass (fun _ _ => none) [("고양이.jpg", 5)]).1 =
      ((v3Pass (fun _ _ => none) [("고양이.jpg", 5)]).1,
       LogLine.listing ((v3Pass (fun _ _ => none) [("고양이.jpg", 5)]).1.map Prod.fst) ::
         ((v3Pass (fun _ _ => none) [("고양이.jpg", 5)]).1.map Prod.fst).map
           LogLine.skipped)) :=
  ⟨fun _ _ => rfl, by decide,
   claim_c4_idempotent (fun _ _ => none) (fun _ _ => none) [("고양이.jpg", 5)]
     (fun _ _ => rfl) (by decide)⟩

/-- C6: a rename failure on an entry is caught per entry in all three
versions — the run logs an error line carrying that entry's filename
and the error text, the file keeps its old name and contents, and the
pass still emits one line per entry (v1), one line per listed mapped
file plus the header (v2), or one line per listed file plus the header
(v3), so processing continued to the end instead of aborting. -/
theorem claim_c6_error_caught (err : ErrOracle) (d : Dir) (k dst msg : String)
    (c : Content) (hmem : (k, dst) ∈ mapping) (hnd : (d.map Prod.fst).Nodup)
    (hc : lookupFile d k = some c) (he : err k dst = some msg) :
    (LogLine.renameError k msg ∈ (v1RunFs err (some d)).2 ∧
     lookupFs (v1RunFs err (some d)).1 k = some c ∧
     (v1RunFs err (some d)).2.length = mapping.length) ∧
    (LogLine.renameError k msg ∈ (v2Pass err d).2 ∧
     lookupFile (v2Pass err d).1 k = some c ∧
     (v2Pass err d).2.length =
       1 + ((d.map Prod.fst).filter
         (fun f => (mapLookup mapping f).isSome)).length) ∧
    (LogLine.renameError k msg ∈ (v3Pass err d).2 ∧
     lookupFile (v3Pass err d).1 k = some c ∧
     (v3Pass err d).2.length = d.length + 1) := by
  have h1 := v1_errorKeep err goodMapping k dst msg c hmem (some d) [] hc he
  have hlen1 := v1Fold_log_length err mapping ((some d : Option Dir), [])
  have h2 := v2_errorKeep err goodMapping k dst msg c hmem (d.map Prod.fst) hnd
    (mem_of_lookupFile_isSome hc) d [LogLine.listing (d.map Prod.fst)] hc he
  have hlen2 := v2Fold_log_length err mapping (d.map Prod.fst)
    (d, [LogLine.listing (d.map Prod.fst)])
  have h3 := v3_errorKeep err goodMapping k dst msg c hmem (d.map Prod.fst) hnd
    (mem_of_lookupFile_isSome hc) d [LogLine.listing (d.map Prod.fst)] hc he
  have hlen3 := v3Fold_log_length err mapping (d.map Prod.fst)
    (d, [LogLine.listing (d.map Prod.fst)])
  refine ⟨⟨h1.2, h1.1, ?_⟩, ⟨h2.2, h2.1, ?_⟩, ⟨h3.2, h3.1, ?_⟩⟩
  · simpa using hlen1
  · simpa using hlen2
  · simpa [Nat.add_comm] using hlen3

/-- Witness for C6: the cat file is present and its rename is denied. -/
theorem claim_c6_witness :
    ("고양이.jpg", "cat-mascot.jpg") ∈ mapping ∧
    (([("고양이.jpg", 3)] : Dir).map Prod.fst).Nodup ∧
    lookupFile [("고양이.jpg", 3)] "고양이.jpg" = some 3 ∧
    (fun _ _ => some "Permission denied" : ErrOracle) "고양이.jpg" "cat-mascot.jpg" =
      some "Permission denied" ∧
    ((LogLine.renameError "고양이.jpg" "Permission denied" ∈
        (v1RunFs (fun _ _ => some "Permission denied") (some [("고양이.jpg", 3)])).2 ∧
      lookupFs (v1RunFs (fun _ _ => some "Permission denied")
        (some [("고양이.jpg", 3)])).1 "고양이.jpg" = some 3 ∧
      (v1RunFs (fun _ _ => some "Permission denied")
        (some [("고양이.jpg", 3)])).2.length = mapping.length) ∧
     (LogLine.renameError "고양이.jpg" "Permission denied" ∈
        (v2Pass (fun _ _ => some "Permission denied") [("고양이.jpg", 3)]).2 ∧
      lookupFile (v2Pass (fun _ _ => some "Permission denied")
        [("고양이.jpg", 3)]).1 "고양이.jpg" = some 3 ∧
      (v2Pass (fun _ _ => some "Permission denied")
        [("고양이.jpg", 3)]).2.length =
        1 + ((([("고양이.jpg", 3)] : Dir).map Prod.fst).filter
          (fun f => (mapLookup mapping f).isSome)).length) ∧
     (LogLine.renameError "고양이.jpg" "Permission denied" ∈
        (v3Pass (fun _ _ => some "Permission denied") [("고양이.jpg", 3)]).2 ∧
      lookupFile (v3Pass (fun _ _ => some "Permission denied")
        [("고양이.jpg", 3)]).1 "고양이.jpg" = some 3 ∧
      (v3Pass (fun _ _ => some "Permission denied")
        [("고양이.jpg", 3)]).2.length = ([("고양이.jpg", 3)] : Dir).length + 1)) :=
  ⟨by decide, by decide, by decide, rfl,
   claim_c6_error_caught (fun _ _ => some "Permission denied") [("고양이.jpg", 3)]
     "고양이.jpg" "cat-mascot.jpg" "Permission denied" 3
     (by decide) (by decide) (by decide) rfl⟩

/-- C7: when the base directory exists and every attempted rename
succeeds, the mapping-iteration strategy of v1 and the
directory-listing strategy of v2/v3 produce the same final directory
state — file-for-file identical lookups between v1 and v3, and
identical directory values between v2 and v3. -/
theorem claim_c7_strategies_equivalent (err : ErrOracle) (d : Dir)
    (hne : ∀ o n, err o n = none) (hnd : (d.map Prod.fst).Nodup) :
    (∀ n, lookupFs (v1RunFs err (some d)).1 n = lookupFile (v3Pass err d).1 n) ∧
    (v2Pass err d).1 = (v3Pass err d).1 := by
  constructor
  · intro n
    by_cases hk : n ∈ keysOf mapping
    · obtain ⟨e, hemem, heq⟩ := List.mem_map.mp hk
      obtain ⟨k2, dst2⟩ := e
      have heq2 : k2 = n := heq
      subst heq2
      exact (v1_keyNone err goodMapping hne k2 dst2 hemem (some d) []).trans
        (v3_keyNone err goodMapping hne k2 dst2 hemem d hnd
          [LogLine.listing (d.map Prod.fst)]).symm
    · by_cases hdsts : ∃ e ∈ mapping, e.2 = n
      · obtain ⟨e, hemem, heq⟩ := hdsts
        obtain ⟨k2, dst2⟩ := e
        have heq2 : dst2 = n := heq
        subst heq2
        cases hc : lookupFile d k2 with
        | some c =>
          have h1 := v1_present err goodMapping k2 dst2 c hemem (some d) []
            hc (hne k2 dst2)
          have h3 := v3_present err goodMapping k2 dst2 c hemem (d.map Prod.fst)
            hnd (mem_of_lookupFile_isSome hc) d
            [LogLine.listing (d.map Prod.fst)] hc (hne k2 dst2)
          exact h1.2.1.trans h3.2.1.symm
        | none =>
          have h1 := v1_absent err goodMapping k2 dst2 hemem (some d) [] hc
          have h3 := v3_absent err goodMapping k2 dst2 hemem (d.map Prod.fst) d
            [LogLine.listing (d.map Prod.fst)] hc
          exact h1.2.1.trans h3.2.symm
      · have hpairs : ∀ e ∈ mapping, n ≠ e.1 ∧ n ≠ e.2 := by
          intro e he
          refine ⟨fun hne1 => hk ?_, fun hne2 => hdsts ⟨e, he, hne2.symm⟩⟩
          rw [hne1]
          exact List.mem_map_of_mem Prod.fst he
        have hframe3 : ∀ f ∈ d.map Prod.fst, ∀ dst2,
            mapLookup mapping f = some dst2 → f ≠ n ∧ dst2 ≠ n := by
          intro f hf dst2 hm2
          have hmm := mapLookup_mem hm2
          refine ⟨fun hfn => hk ?_, fun hdn => hdsts ⟨(f, dst2), hmm, hdn⟩⟩
          rw [← hfn]
          exact List.mem_map_of_mem Prod.fst hmm
        exact (v1Fold_frame err mapping n hpairs ((some d : Option Dir), [])).trans
          (v3Fold_frame err mapping (d.map Prod.fst) n hframe3
            (d, [LogLine.listing (d.map Prod.fst)])).symm
  · exact v2v3_state_eq err mapping (d.map Prod.fst) d
      [LogLine.listing (d.map Prod.fst)] [LogLine.listing (d.map Prod.fst)]

/-- Witness for C7 at the concrete directory holding only `고양이.jpg`,
observing the shared destination filename. -/
theorem claim_c7_witness :
    (∀ o n : String, (fun _ _ => none : ErrOracle) o n = none) ∧
    (([("고양이.jpg", 4)] : Dir).map Prod.fst).Nodup ∧
    lookupFs (v1RunFs (fun _ _ => none) (some [("고양이.jpg", 4)])).1
      "cat-mascot.jpg" =
      lookupFile (v3Pass (fun _ _ => none) [("고양이.jpg", 4)]).1
        "cat-mascot.jpg" ∧
    (v2Pass (fun _ _ => none) [("고양이.jpg", 4)]).1 =
      (v3Pass (fun _ _ => none) [("고양이.jpg", 4)]).1 :=
  ⟨fun _ _ => rfl, by decide,
   (claim_c7_strategies_equivalent (fun _ _ => none) [("고양이.jpg", 4)]
     (fun _ _ => rfl) (by decide)).1 "cat-mascot.jpg",
   (claim_c7_strategies_equivalent (fun _ _ => none) [("고양이.jpg", 4)]
     (fun _ _ => rfl) (by decide)).2⟩

/-- C10 counterexample: a present file whose name is not a mapping key
is not always left untouched — when it collides with the destination of
a present source, a successful rename silently overwrites it (POSIX
semantics), as here where `cat-mascot.jpg` goes from content 9 to the
cat file's content 1 in both v1 and v3. -/
theorem claim_c10_counterexample :
    "cat-mascot.jpg" ∉ keysOf mapping ∧
    lookupFile [("cat-mascot.jpg", 9), ("고양이.jpg", 1)] "cat-mascot.jpg" =
      some 9 ∧
    lookupFs (v1RunFs (fun _ _ => none)
      (some [("cat-mascot.jpg", 9), ("고양이.jpg", 1)])).1 "cat-mascot.jpg" =
      some 1 ∧
    lookupFile (v3Pass (fun _ _ => none)
      [("cat-mascot.jpg", 9), ("고양이.jpg", 1)]).1 "cat-mascot.jpg" = some 1 := by
  decide

/-- C10 amended: every present file whose name is neither a mapping key
nor the destination of a present source is left untouched by all three
versions, and v2's loose-match branch is a no-op that never performs a
rename; a file colliding with the destination of a present source may
instead be overwritten. -/
theorem claim_c10_amended (err : ErrOracle) (d : Dir) (n : String)
    (hk : n ∉ keysOf mapping)
    (habs : ∀ e ∈ mapping, e.2 = n → lookupFile d e.1 = none) :
    lookupFs (v1RunFs err (some d)).1 n = lookupFile d n ∧
    lookupFile (v2Pass err d).1 n = lookupFile d n ∧
    lookupFile (v3Pass err d).1 n = lookupFile d n ∧
    (∀ acc f, looseMatch mapping acc f = acc) := by
  have hstate2 : (v2Pass err d).1 = (v3Pass err d).1 :=
    v2v3_state_eq err mapping (d.map Prod.fst) d
      [LogLine.listing (d.map Prod.fst)] [LogLine.listing (d.map Prod.fst)]
  by_cases hdsts : ∃ e ∈ mapping, e.2 = n
  · obtain ⟨e, hemem, heq⟩ := hdsts
    obtain ⟨k2, dst2⟩ := e
    have heq2 : dst2 = n := heq
    subst heq2
    have hc := habs (k2, dst2) hemem rfl
    have h1 := v1_absent err goodMapping k2 dst2 hemem (some d) [] hc
    have h3 := v3_absent err goodMapping k2 dst2 hemem (d.map Prod.fst) d
      [LogLine.listing (d.map Prod.fst)] hc
    exact ⟨h1.2.1, (congrArg (fun dd => lookupFile dd dst2) hstate2).trans h3.2,
      h3.2, fun acc f => looseMatch_eq mapping acc f⟩
  · have hpairs : ∀ e ∈ mapping, n ≠ e.1 ∧ n ≠ e.2 := by
      intro e he
      refine ⟨fun hne1 => hk ?_, fun hne2 => hdsts ⟨e, he, hne2.symm⟩⟩
      rw [hne1]
      exact List.mem_map_of_mem Prod.fst he
    have hframe3 : ∀ f ∈ d.map Prod.fst, ∀ dst2,
        mapLookup mapping f = some dst2 → f ≠ n ∧ dst2 ≠ n := by
      intro f hf dst2 hm2
      have hmm := mapLookup_mem hm2
      refine ⟨fun hfn => hk ?_, fun hdn => hdsts ⟨(f, dst2), hmm, hdn⟩⟩
      rw [← hfn]
      exact List.mem_map_of_mem Prod.fst hmm
    have h3 := v3Fold_frame err mapping (d.map Prod.fst) n hframe3
      (d, [LogLine.listing (d.map Prod.fst)])
    exact ⟨v1Fold_frame err mapping n hpairs ((some d : Option Dir), []),
      (congrArg (fun dd => lookupFile dd n) hstate2).trans h3, h3,
      fun acc f => looseMatch_eq mapping acc f⟩

/-- Witness for the amended C10: a present unrelated file is untouched. -/
theorem claim_c10_witness :
    "readme.txt" ∉ keysOf mapping ∧
    (∀ e ∈ mapping, e.2 = "readme.txt" →
      lookupFile [("readme.txt", 5)] e.1 = none) ∧
    (lookupFs (v1RunFs (fun _ _ => none) (some [("readme.txt", 5)])).1
       "readme.txt" = lookupFile [("readme.txt", 5)] "readme.txt" ∧
     lookupFile (v2Pass (fun _ _ => none) [("readme.txt", 5)]).1 "readme.txt" =
       lookupFile [("readme.txt", 5)] "readme.txt" ∧
     lookupFile (v3Pass (fun _ _ => none) [("readme.txt", 5)]).1 "readme.txt" =
       lookupFile [("readme.txt", 5)] "readme.txt" ∧
     (∀ acc f, looseMatch mapping acc f = acc)) :=
  ⟨by decide, by decide,
   claim_c10_amended (fun _ _ => none) [("readme.txt", 5)] "readme.txt"
     (by decide) (by decide)⟩

end RenameImages
